import Mathlib

/-!
Verification development for the P2P propagation core (`qrl/core/p2pfactory.py`).

The Python source is shallowly embedded: the factory's mutable state becomes an
explicit state record, network writes and timer arms become entries in an event
trace, and Python exceptions become an explicit error component of each
operation's outcome.  Collaborator behaviour that can fail (the chain-score
collaborator, a peer transport's `write`) is passed in as an explicit oracle.
-/

namespace P2PFactory

/-- Message hashes (Python `bytes` keys) are modelled as naturals. -/
abbrev Hash := Nat

/-- A peer session object; identity is all the embedding needs. -/
abbrev Peer := Nat

/-- Modelled from the spec: the per-hash `RequestState` kept by the
`MessageReceiptRegistry` (spec §3, §4.1).  The class itself is outside
`src/`; its three fields are exactly those the factory code reads and
writes: `peers_connection_list` (candidate peers in announce order),
`already_requested_peers` (the asked subset), and `callLater` (the live
timer handle, here a timer id). -/
structure MessageRequest where
  peers_connection_list : List Peer
  already_requested_peers : List Peer
  callLater : Option Nat
deriving DecidableEq, Repr

/-- Modelled from the spec: the `MessageReceiptRegistry` state (spec §4.1)
as used by the factory: `hash_msg` is the set of fully-known hashes (the
keys of the registry's message dict) and `requested_hash` is the dict of
pending `RequestState`s, one per not-yet-known announced hash. -/
structure MRState where
  hash_msg : List Hash
  requested_hash : List (Hash × MessageRequest)
deriving DecidableEq, Repr

/-- The announce record (`qrl_pb2.MR`) as far as this layer inspects it:
a hash and a type tag.  (The block-specific extra fields are opaque
payload here.) -/
structure MRRecord where
  hash : Hash
  type : String
deriving DecidableEq, Repr

/-- Observable effects of one factory operation: wire writes to a peer's
transport and timer arms via `reactor.callLater`. -/
inductive Event where
  /-- `peer.transport.write(wrap_message('MR', …))`: an announce sent to `p`. -/
  | sendMR (p : Peer) (rec : MRRecord)
  /-- `peer.transport.write(peer.wrap_message('SFM', …))`: a full-message request. -/
  | sendSFM (p : Peer) (h : Hash)
  /-- `peer.transport.write(wrap_message('PING'))`. -/
  | sendPing (p : Peer)
  /-- `self.master_mr.register(msg_hash, …)`. -/
  | register (h : Hash)
  /-- `reactor.callLater(message_receipt_timeout, self.RFM, data)`. -/
  | armRFMTimer (h : Hash)
  /-- `reactor.callLater(delay, self.select_best_bkmr)`. -/
  | armSelectorTimer (delay : Nat)
deriving DecidableEq, Repr

/-- Python exceptions this code can raise: a dict lookup miss
(`KeyError`) and a raising transport write. -/
inductive PyError where
  | keyError
  | writeFailed
deriving DecidableEq, Repr

/-- The mutable fields of `P2PFactory` the claims are about, plus a
fresh-timer counter used to mint `IDelayedCall` handles. -/
structure FactoryState where
  master_mr : MRState
  peer_connections : List Peer
  bkmr_blocknumber : Nat
  bkmr_priorityq : List (Nat × Hash)
  bkmr_processor : Nat
  timer_ctr : Nat
  last_ping : Option Nat
deriving DecidableEq, Repr

/-- Result of running one operation: the exception it raised (if any),
the state it left behind, and the effects it performed before returning
or raising. -/
structure Outcome where
  err : Option PyError
  state : FactoryState
  trace : List Event
deriving DecidableEq, Repr

/-- `self.master_mr.requested_hash[h]` / `h in self.master_mr.requested_hash`:
dict lookup on the `RequestState` table. -/
def lookupReq (l : List (Hash × MessageRequest)) (h : Hash) : Option MessageRequest :=
  match l with
  | [] => none
  | kv :: t => if kv.1 = h then some kv.2 else lookupReq t h

/-- `del self.master_mr.requested_hash[h]`. -/
def delReq (l : List (Hash × MessageRequest)) (h : Hash) : List (Hash × MessageRequest) :=
  l.filter (fun kv => kv.1 != h)

/-- The `for peer in peers_list` scan of `RFM` (p2pfactory.py lines
94–96): peers already in the asked set are skipped (`continue`), and the
loop body acts on the first peer not yet asked. -/
def firstUnasked (peers asked : List Peer) : Option Peer :=
  match peers with
  | [] => none
  | p :: ps => if p ∈ asked then firstUnasked ps asked else some p

/-- In-place mutation of the dict entry for `h` (Python mutates the
`MessageRequest` object behind the key). -/
def setReq (l : List (Hash × MessageRequest)) (h : Hash) (mr : MessageRequest) :
    List (Hash × MessageRequest) :=
  l.map (fun kv => if kv.1 == h then (h, mr) else kv)

/-- `P2PFactory.RFM(data)` (p2pfactory.py lines 74–110).  `data_hash` is
`data.hash`.  Fully-known hashes get stale-state cleanup and return; an
absent `RequestState` for an unknown hash is a `KeyError` at the
`requested_hash[msg_hash]` subscript; otherwise the candidate list is
scanned in order, the first un-asked peer is marked, sent `SFM`, and a
retry timer is armed; if every candidate was already asked the
`RequestState` is deleted. -/
def RFM (s : FactoryState) (data_hash : Hash) : Outcome :=
  let msg_hash := data_hash
  if msg_hash ∈ s.master_mr.hash_msg then
    if (lookupReq s.master_mr.requested_hash msg_hash).isSome then
      { err := none
        state := { s with master_mr :=
          { s.master_mr with requested_hash := delReq s.master_mr.requested_hash msg_hash } }
        trace := [] }
    else
      { err := none, state := s, trace := [] }
  else
    match lookupReq s.master_mr.requested_hash msg_hash with
    | none => { err := some .keyError, state := s, trace := [] }
    | some message_request =>
      match firstUnasked message_request.peers_connection_list
          message_request.already_requested_peers with
      | some peer =>
        let mr' : MessageRequest :=
          { message_request with
            already_requested_peers := message_request.already_requested_peers ++ [peer]
            callLater := some s.timer_ctr }
        { err := none
          state := { s with
            master_mr :=
              { s.master_mr with requested_hash := setReq s.master_mr.requested_hash msg_hash mr' }
            timer_ctr := s.timer_ctr + 1 }
          trace := [Event.sendSFM peer msg_hash, Event.armRFMTimer msg_hash] }
      | none =>
        if (lookupReq s.master_mr.requested_hash msg_hash).isSome then
          { err := none
            state := { s with master_mr :=
              { s.master_mr with requested_hash := delReq s.master_mr.requested_hash msg_hash } }
            trace := [] }
        else
          { err := none, state := s, trace := [] }

/-- Lexicographic order used by Python's `PriorityQueue` on
`(score, hash)` tuples. -/
def lexLe (a b : Nat × Nat) : Bool :=
  a.1 < b.1 || (a.1 == b.1 && a.2 ≤ b.2)

/-- The minimum tuple of the queue contents, per `lexLe`. -/
def qmin : List (Nat × Hash) → Option (Nat × Hash)
  | [] => none
  | x :: xs =>
    match qmin xs with
    | none => some x
    | some m => some (if lexLe x m then x else m)

/-- `self.bkmr_priorityq.get_nowait()`: pop the minimum `(score, hash)`
tuple, or report the queue empty. -/
def popMin (q : List (Nat × Hash)) : Option ((Nat × Hash) × List (Nat × Hash)) :=
  match qmin q with
  | none => none
  | some m => some (m, q.erase m)

/-- The tail of `select_best_bkmr` after the score check (p2pfactory.py
lines 123–129): build the `MR` with the popped hash and type `'BK'`,
call `RFM`, then re-arm the selector timer for 5 units.  A raise inside
`RFM` skips the re-arm and is caught by the step's handler. -/
def bkmrRequestAndReschedule (s : FactoryState) (dhash : Hash) : Outcome :=
  let r := RFM s dhash
  match r.err with
  | some _ => { err := none, state := r.state, trace := r.trace }
  | none =>
      { err := none
        state := { r.state with
          bkmr_processor := r.state.timer_ctr
          timer_ctr := r.state.timer_ctr + 1 }
        trace := r.trace ++ [Event.armSelectorTimer 5] }

/-- `P2PFactory.select_best_bkmr()` (p2pfactory.py lines 112–134).
`height` is `self.buffered_chain.height`; `get_block_score` is the
chain's score collaborator, which may raise (`Except.error`).  The whole
body is wrapped in `try/except`: `queue.Empty` ends the step silently
and any other exception is caught and logged, so the step itself never
raises. -/
def select_best_bkmr (s : FactoryState) (height : Nat)
    (get_block_score : Nat → Except Unit Nat) : Outcome :=
  let blocknumber := s.bkmr_blocknumber
  match popMin s.bkmr_priorityq with
  | none => { err := none, state := s, trace := [] }
  | some ((dscore, dhash), rest) =>
    let s1 := { s with bkmr_priorityq := rest }
    if blocknumber ≤ height then
      match get_block_score blocknumber with
      | .error _ => { err := none, state := s1, trace := [] }
      | .ok oldscore =>
        if dscore > oldscore then
          { err := none, state := { s1 with bkmr_priorityq := [] }, trace := [] }
        else
          bkmrRequestAndReschedule s1 dhash
    else
      bkmrRequestAndReschedule s1 dhash

/-- The write loop of `broadcast` (p2pfactory.py lines 218–221): walk
`peer_connections` in order, skip peers in the ignore set, and write the
announce to each remaining peer's transport.  `wfail p = true` models
`p.transport.write` raising; Python then aborts the loop and propagates,
so peers after the failing one are never written. -/
def broadcastLoop (ignore : List Peer) (rec : MRRecord) (wfail : Peer → Bool) :
    List Peer → Option PyError × List Event
  | [] => (none, [])
  | p :: ps =>
    if p ∈ ignore then
      broadcastLoop ignore rec wfail ps
    else if wfail p then
      (some .writeFailed, [])
    else
      let rest := broadcastLoop ignore rec wfail ps
      (rest.1, Event.sendMR p rec :: rest.2)

/-- The announce record `broadcast` writes (p2pfactory.py lines
213–216): the caller's `data` if given, else a minimal record with just
hash and type. -/
def broadcastRecord (msg_hash : Hash) (msg_type : String) (data : Option MRRecord) : MRRecord :=
  match data with
  | none => { hash := msg_hash, type := msg_type }
  | some d0 => d0

/-- The ignore set of `broadcast` (p2pfactory.py lines 209–211): the
candidate-peer list of the `RequestState` for `msg_hash` when one
exists, else empty. -/
def ignoreSet (s : FactoryState) (msg_hash : Hash) : List Peer :=
  match lookupReq s.master_mr.requested_hash msg_hash with
  | some mr => mr.peers_connection_list
  | none => []

/-- `P2PFactory.broadcast(msg_hash, msg_type, data=None)` (p2pfactory.py
lines 203–221).  The ignore set is the candidate-peer list of the
`RequestState` for `msg_hash` when one exists; a missing `data` is
replaced by a minimal record; then the write loop runs. -/
def broadcast (s : FactoryState) (msg_hash : Hash) (msg_type : String)
    (data : Option MRRecord) (wfail : Peer → Bool) : Outcome :=
  let ignore_peers := ignoreSet s msg_hash
  let d := broadcastRecord msg_hash msg_type data
  let r := broadcastLoop ignore_peers d wfail s.peer_connections
  { err := r.1, state := s, trace := r.2 }

/-- Modelled from the spec: `MessageReceiptRegistry.register(hash,
payload, type)` (spec §4.1) — the class is outside `src/`.  It marks the
hash fully known (idempotently); the payload store is opaque here. -/
def registryRegister (m : MRState) (h : Hash) : MRState :=
  if h ∈ m.hash_msg then m else { m with hash_msg := m.hash_msg ++ [h] }

/-- `P2PFactory.register_and_broadcast(msg_type, msg_hash, msg_json,
data=None)` (p2pfactory.py lines 190–201): register the payload with the
registry first, fill in the announce record's hash and type, then
broadcast it. -/
def register_and_broadcast (s : FactoryState) (msg_type : String) (msg_hash : Hash)
    (data : Option MRRecord) (wfail : Peer → Bool) : Outcome :=
  let s1 := { s with master_mr := registryRegister s.master_mr msg_hash }
  let d0 : MRRecord :=
    match data with
    | none => { hash := msg_hash, type := msg_type }
    | some d => d
  let d : MRRecord := { d0 with hash := msg_hash, type := msg_type }
  let r := broadcast s1 msg_hash msg_type (some d) wfail
  { r with trace := Event.register msg_hash :: r.trace }

/-- The write loop of `ping_peers` (p2pfactory.py lines 184–185), with
the same propagation of a raising write as `broadcastLoop`. -/
def pingLoop (wfail : Peer → Bool) : List Peer → Option PyError × List Event
  | [] => (none, [])
  | p :: ps =>
    if wfail p then
      (some .writeFailed, [])
    else
      let rest := pingLoop wfail ps
      (rest.1, Event.sendPing p :: rest.2)

/-- `P2PFactory.ping_peers()` (p2pfactory.py lines 179–186): record the
ping time, then write `PING` to every connected peer. -/
def ping_peers (s : FactoryState) (now : Nat) (wfail : Peer → Bool) : Outcome :=
  let s1 := { s with last_ping := some now }
  let r := pingLoop wfail s.peer_connections
  { err := r.1, state := s1, trace := r.2 }

/-- Recognizer for announce writes, used to state that `broadcast`'s only
effects are writes to peer transports. -/
def isAnnounceWrite : Event → Bool
  | Event.sendMR _ _ => true
  | _ => false

/-- The transport-write oracle in which every write succeeds (Twisted's
`transport.write` never raises synchronously). -/
def noWriteFailure : Peer → Bool := fun _ => false

/-- An empty registry. -/
def emptyMR : MRState := { hash_msg := [], requested_hash := [] }

/-- A base factory state for concrete evaluations. -/
def baseState : FactoryState :=
  { master_mr := emptyMR
    peer_connections := []
    bkmr_blocknumber := 0
    bkmr_priorityq := []
    bkmr_processor := 0
    timer_ctr := 0
    last_ping := none }

/-- Tracked height 0, two queued candidates with scores worse than the
chain's accepted score 50. -/
def pruneState : FactoryState :=
  { baseState with bkmr_priorityq := [(60, 1), (70, 2)] }

/-- A `RequestState` for hash 9 whose every candidate peer was already
asked. -/
def exhaustedState : FactoryState :=
  { baseState with
    peer_connections := [4, 5]
    master_mr :=
      { hash_msg := []
        requested_hash :=
          [(9, { peers_connection_list := [4, 5]
                 already_requested_peers := [5, 4]
                 callLater := some 0 })] } }

/-- One queued candidate at tracked height 0; used against a raising
score collaborator. -/
def selectorFailState : FactoryState :=
  { baseState with bkmr_priorityq := [(40, 7)] }

/-- Two connected peers and an empty registry: hash 7 is neither fully
known nor pending, as after its `RequestState` was deleted. -/
def staleTimerState : FactoryState :=
  { baseState with peer_connections := [1, 2] }

/-- Tracked height 3 ahead of the chain, one queued candidate whose hash
has no `RequestState` and is not fully known. -/
def missingReqState : FactoryState :=
  { baseState with bkmr_priorityq := [(40, 7)], bkmr_blocknumber := 3 }

/-- One queued candidate whose hash 7 has a pending `RequestState` with
two un-asked candidate peers. -/
def progressState : FactoryState :=
  { baseState with
    bkmr_priorityq := [(40, 7)]
    master_mr :=
      { hash_msg := []
        requested_hash :=
          [(7, { peers_connection_list := [4, 5]
                 already_requested_peers := []
                 callLater := none })] } }

/-- Two connected peers, empty registry; peer 1's transport write will
be made to raise. -/
def twoPeerState : FactoryState :=
  { baseState with peer_connections := [1, 2] }

/-- A transport oracle in which exactly peer 1's write raises. -/
def failPeerOne : Peer → Bool := fun p => p == 1

/-- Three connected peers; hash 9 has a `RequestState` whose candidate
list contains peer 2, so the announce for 9 must skip peer 2. -/
def bcastState : FactoryState :=
  { baseState with
    peer_connections := [1, 2, 3]
    master_mr :=
      { hash_msg := []
        requested_hash :=
          [(9, { peers_connection_list := [2]
                 already_requested_peers := []
                 callLater := some 0 })] } }

/-- The `RequestState` of `askState`: candidates 4, 5, 6 announced hash
9; peer 4 was already asked. -/
def askMR : MessageRequest :=
  { peers_connection_list := [4, 5, 6]
    already_requested_peers := [4]
    callLater := some 0 }

/-- Hash 9 pending with candidates `[4, 5, 6]`, peer 4 already asked. -/
def askState : FactoryState :=
  { baseState with
    peer_connections := [4, 5, 6]
    master_mr := { hash_msg := [], requested_hash := [(9, askMR)] } }

/- Lemmas about the embedded operations. -/

theorem broadcastLoop_all_sendMR (ig : List Peer) (rec : MRRecord) (wfail : Peer → Bool)
    (ps : List Peer) : ((broadcastLoop ig rec wfail ps).2.all isAnnounceWrite) = true := by
  induction ps with
  | nil => rfl
  | cons p t ih =>
    by_cases hig : p ∈ ig
    · simpa [broadcastLoop, hig] using ih
    · by_cases hw : wfail p
      · simp [broadcastLoop, hig, hw]
      · simpa [broadcastLoop, hig, hw, isAnnounceWrite] using ih

theorem lookupReq_delReq_self (l : List (Hash × MessageRequest)) (h : Hash) :
    lookupReq (delReq l h) h = none := by
  induction l with
  | nil => rfl
  | cons kv t ih =>
    by_cases hk : kv.1 = h
    · simpa [delReq, List.filter_cons, hk] using ih
    · simpa [delReq, List.filter_cons, hk, lookupReq] using ih

theorem firstUnasked_eq_none (peers asked : List Peer)
    (hall : ∀ p ∈ peers, p ∈ asked) : firstUnasked peers asked = none := by
  induction peers with
  | nil => rfl
  | cons p t ih =>
    have hp : p ∈ asked := hall p (List.mem_cons_self p t)
    simpa [firstUnasked, hp] using ih fun q hq => hall q (List.mem_cons_of_mem p hq)

theorem firstUnasked_spec (peers asked : List Peer) (p : Peer)
    (h : firstUnasked peers asked = some p) :
    p ∉ asked ∧ ∃ i, peers.get? i = some p ∧
      ∀ j, j < i → ∀ q, peers.get? j = some q → q ∈ asked := by
  induction peers with
  | nil => cases h
  | cons a t ih =>
    unfold firstUnasked at h
    by_cases ha : a ∈ asked
    · rw [if_pos ha] at h
      rcases ih h with ⟨hnp, i, hi, hj⟩
      refine ⟨hnp, i + 1, hi, ?_⟩
      intro j hj' q hq
      cases j with
      | zero =>
        have haq : a = q := by injection hq
        exact haq ▸ ha
      | succ k => exact hj k (Nat.lt_of_succ_lt_succ hj') q hq
    · rw [if_neg ha] at h
      have hap : a = p := by injection h
      subst hap
      exact ⟨ha, 0, rfl, fun j hj q _ => absurd hj (Nat.not_lt_zero j)⟩

theorem firstUnasked_shadow (peers : List Peer) (x : Peer) (asked : List Peer)
    (hx : x ∉ peers) :
    firstUnasked peers (x :: asked) = firstUnasked peers asked := by
  induction peers with
  | nil => rfl
  | cons a t ih =>
    have hax : a ≠ x := fun e => hx (e ▸ List.mem_cons_self a t)
    have hxt : x ∉ t := fun ht => hx (List.mem_cons_of_mem a ht)
    by_cases ha : a ∈ asked
    · have hmem : a ∈ x :: asked := List.mem_cons_of_mem x ha
      simp [firstUnasked, ha, hmem, ih hxt]
    · have hnmem : a ∉ x :: asked := by
        intro hmem
        rcases List.mem_cons.1 hmem with he | hmem2
        · exact hax he
        · exact ha hmem2
      simp [firstUnasked, ha, hnmem]

theorem firstUnasked_take (l : List Peer) (n : Nat) (hnd : l.Nodup) (hn : n < l.length) :
    firstUnasked l (l.take n) = l.get? n := by
  induction l generalizing n with
  | nil => exact absurd hn (Nat.not_lt_zero n)
  | cons a t ih =>
    cases n with
    | zero => simp [firstUnasked]
    | succ m =>
      have hat : a ∉ t := (List.nodup_cons.1 hnd).1
      have hndt : t.Nodup := (List.nodup_cons.1 hnd).2
      have hm : m < t.length := Nat.lt_of_succ_lt_succ hn
      have hmem : a ∈ a :: t.take m := List.mem_cons_self _ _
      calc firstUnasked (a :: t) ((a :: t).take (m + 1))
          = firstUnasked t (a :: t.take m) := by
            simp [firstUnasked, List.take_succ_cons, hmem]
        _ = firstUnasked t (t.take m) := firstUnasked_shadow t a _ hat
        _ = t.get? m := ih m hndt hm

theorem lookupReq_setReq_self (l : List (Hash × MessageRequest)) (h : Hash)
    (mr mr' : MessageRequest) (hl : lookupReq l h = some mr) :
    lookupReq (setReq l h mr') h = some mr' := by
  induction l with
  | nil => cases hl
  | cons kv t ih =>
    by_cases hk : kv.1 = h
    · simp [setReq, lookupReq, hk]
    · simp only [lookupReq, if_neg hk] at hl
      simpa [setReq, lookupReq, hk] using ih hl

/-- C10: `broadcast` is effect-free on core state: the registry's
fully-known table, the `RequestState` table and the peer-connection list
are all unchanged, and its only effects are announce writes to peer
transports. -/
theorem broadcast_frame (s : FactoryState) (msg_hash : Hash) (msg_type : String)
    (data : Option MRRecord) (wfail : Peer → Bool) :
    (broadcast s msg_hash msg_type data wfail).state = s ∧
    (broadcast s msg_hash msg_type data wfail).state.master_mr.hash_msg
      = s.master_mr.hash_msg ∧
    (broadcast s msg_hash msg_type data wfail).state.master_mr.requested_hash
      = s.master_mr.requested_hash ∧
    (broadcast s msg_hash msg_type data wfail).state.peer_connections
      = s.peer_connections ∧
    ((broadcast s msg_hash msg_type data wfail).trace.all isAnnounceWrite) = true :=
  ⟨rfl, rfl, rfl, rfl, broadcastLoop_all_sendMR _ _ _ _⟩

/-- C9: in `register_and_broadcast` the registry's `register` runs before
any peer is written the announce: the trace starts with the `register`
event and everything after it is an announce write. -/
theorem register_precedes_announce (s : FactoryState) (msg_type : String) (msg_hash : Hash)
    (data : Option MRRecord) (wfail : Peer → Bool) :
    ∃ rest, (register_and_broadcast s msg_type msg_hash data wfail).trace
        = Event.register msg_hash :: rest ∧ rest.all isAnnounceWrite = true :=
  ⟨_, rfl, broadcastLoop_all_sendMR _ _ _ _⟩

/-- C7: when a not-fully-known hash's candidate peers have all been asked
already, `RFM` deletes the hash's `RequestState` and sends nothing. -/
theorem rfm_exhaustion_deletes_request_state (s : FactoryState) (h : Hash)
    (mr : MessageRequest)
    (hunknown : h ∉ s.master_mr.hash_msg)
    (hlook : lookupReq s.master_mr.requested_hash h = some mr)
    (hall : ∀ p ∈ mr.peers_connection_list, p ∈ mr.already_requested_peers) :
    RFM s h =
      { err := none
        state := { s with master_mr :=
          { s.master_mr with requested_hash := delReq s.master_mr.requested_hash h } }
        trace := [] } ∧
    lookupReq (RFM s h).state.master_mr.requested_hash h = none := by
  have hfind : firstUnasked mr.peers_connection_list mr.already_requested_peers = none :=
    firstUnasked_eq_none _ _ hall
  have hmain : RFM s h =
      { err := none
        state := { s with master_mr :=
          { s.master_mr with requested_hash := delReq s.master_mr.requested_hash h } }
        trace := [] } := by
    simp [RFM, hunknown, hlook, hfind]
  refine ⟨hmain, ?_⟩
  rw [hmain]
  exact lookupReq_delReq_self _ _

/-- Closed witness for C7: with every candidate for hash 9 already asked,
one `RFM` call removes the `RequestState` and performs no sends. -/
theorem rfm_exhaustion_deletes_request_state_witness :
    (9 : Hash) ∉ exhaustedState.master_mr.hash_msg ∧
    RFM exhaustedState 9 =
      { err := none
        state := { exhaustedState with master_mr :=
          { exhaustedState.master_mr with
            requested_hash := delReq exhaustedState.master_mr.requested_hash 9 } }
        trace := [] } ∧
    lookupReq (RFM exhaustedState 9).state.master_mr.requested_hash 9 = none :=
  ⟨by decide,
   (rfm_exhaustion_deletes_request_state exhaustedState 9
      { peers_connection_list := [4, 5], already_requested_peers := [5, 4], callLater := some 0 }
      (by decide) (by decide) (by decide)).1,
   (rfm_exhaustion_deletes_request_state exhaustedState 9
      { peers_connection_list := [4, 5], already_requested_peers := [5, 4], callLater := some 0 }
      (by decide) (by decide) (by decide)).2⟩

/-- C4: when the tracked height is at or below the chain height and the
popped best candidate scores strictly worse than the chain's accepted
score, the selector step empties the whole queue, issues no request and
does not reschedule. -/
theorem selector_prunes_queue (s : FactoryState) (height : Nat)
    (gbs : Nat → Except Unit Nat) (dscore : Nat) (dhash : Hash)
    (rest : List (Nat × Hash)) (oldscore : Nat)
    (hpop : popMin s.bkmr_priorityq = some ((dscore, dhash), rest))
    (hle : s.bkmr_blocknumber ≤ height)
    (hscore : gbs s.bkmr_blocknumber = Except.ok oldscore)
    (hgt : oldscore < dscore) :
    select_best_bkmr s height gbs =
      { err := none, state := { s with bkmr_priorityq := [] }, trace := [] } := by
  simp [select_best_bkmr, hpop, hle, hscore, hgt]

/-- Closed witness for C4: accepted score 50 at height 0, queue
`[(60, 1), (70, 2)]` — one step leaves the queue empty with no effects. -/
theorem selector_prunes_queue_witness :
    popMin pruneState.bkmr_priorityq = some ((60, 1), [(70, 2)]) ∧
    select_best_bkmr pruneState 0 (fun _ => Except.ok 50) =
      { err := none, state := { pruneState with bkmr_priorityq := [] }, trace := [] } :=
  ⟨by decide,
   selector_prunes_queue pruneState 0 (fun _ => Except.ok 50) 60 1 [(70, 2)] 50
     (by decide) (by decide) rfl (by decide)⟩

theorem bkmrRR_err_none (s : FactoryState) (dh : Hash) :
    (bkmrRequestAndReschedule s dh).err = none := by
  unfold bkmrRequestAndReschedule
  dsimp only
  split <;> rfl

theorem RFM_err_none_of_present (s : FactoryState) (h : Hash)
    (hyp : h ∈ s.master_mr.hash_msg ∨
      (lookupReq s.master_mr.requested_hash h).isSome = true) :
    (RFM s h).err = none := by
  unfold RFM
  by_cases hk : h ∈ s.master_mr.hash_msg
  · simp only [if_pos hk]
    split <;> rfl
  · rcases hyp with hyp | hyp
    · exact absurd hyp hk
    · rcases Option.isSome_iff_exists.1 hyp with ⟨mr, hmr⟩
      simp only [if_neg hk, hmr]
      split <;> [rfl; skip]
      split <;> rfl

/-- C2 counterexample: for a hash that is not fully known and whose
`RequestState` has been deleted (as when a stale retry timer fires),
`RFM` raises `KeyError` at the `requested_hash[msg_hash]` subscript —
it is not the claimed silent no-op.  (It does perform no sends and no
state changes.) -/
theorem rfm_stale_timer_raises_cex :
    RFM staleTimerState 7 =
      { err := some PyError.keyError, state := staleTimerState, trace := [] } := by
  decide

/-- C2 amended: invoking `RFM` for a not-fully-known hash with no
`RequestState` performs no sends and no state changes, but raises
`KeyError` (surfacing the logic error) rather than returning silently. -/
theorem rfm_missing_request_state_raises (s : FactoryState) (h : Hash)
    (hunknown : h ∉ s.master_mr.hash_msg)
    (hgone : lookupReq s.master_mr.requested_hash h = none) :
    RFM s h = { err := some PyError.keyError, state := s, trace := [] } := by
  simp [RFM, hunknown, hgone]

/-- Closed witness for the amended C2. -/
theorem rfm_missing_request_state_raises_witness :
    (7 : Hash) ∉ staleTimerState.master_mr.hash_msg ∧
    lookupReq staleTimerState.master_mr.requested_hash 7 = none ∧
    RFM staleTimerState 7 =
      { err := some PyError.keyError, state := staleTimerState, trace := [] } :=
  ⟨by decide, by decide,
   rfm_missing_request_state_raises staleTimerState 7 (by decide) (by decide)⟩

/-- C1 counterexample: the score collaborator raises after the candidate
was popped; the exception is caught (`err = none`), but the step arms no
new selector timer (`trace = []`), so the recurring schedule — which
recurs only through the step's own `callLater` on line 129 — terminates
instead of proceeding to a next invocation. -/
theorem selector_step_exception_kills_schedule_cex :
    select_best_bkmr selectorFailState 5 (fun _ => Except.error ()) =
      { err := none, state := { selectorFailState with bkmr_priorityq := [] }, trace := [] } ∧
    Event.armSelectorTimer 5 ∉
      (select_best_bkmr selectorFailState 5 (fun _ => Except.error ())).trace := by
  constructor
  · decide
  · decide

/-- C1 amended: an unexpected collaborator exception inside the selector
step is caught — the step itself never raises — and a failing step has
no effect beyond the pop that preceded the failure; however such a step
does not re-arm the selector timer, so no next invocation is scheduled
by it. -/
theorem selector_step_absorbs_exceptions (s : FactoryState) (height : Nat)
    (gbs : Nat → Except Unit Nat) :
    (select_best_bkmr s height gbs).err = none ∧
    (∀ dscore dhash rest,
      popMin s.bkmr_priorityq = some ((dscore, dhash), rest) →
      s.bkmr_blocknumber ≤ height →
      gbs s.bkmr_blocknumber = Except.error () →
      select_best_bkmr s height gbs =
        { err := none, state := { s with bkmr_priorityq := rest }, trace := [] }) := by
  constructor
  · unfold select_best_bkmr
    dsimp only
    repeat' split
    all_goals first
      | rfl
      | exact bkmrRR_err_none _ _
  · intro dscore dhash rest hpop hle hraise
    simp [select_best_bkmr, hpop, hle, hraise]

/-- Closed witness for the amended C1. -/
theorem selector_step_absorbs_exceptions_witness :
    (select_best_bkmr selectorFailState 5 (fun _ => Except.error ())).err = none ∧
    popMin selectorFailState.bkmr_priorityq = some ((40, 7), []) ∧
    select_best_bkmr selectorFailState 5 (fun _ => Except.error ()) =
      { err := none, state := { selectorFailState with bkmr_priorityq := [] }, trace := [] } :=
  ⟨(selector_step_absorbs_exceptions selectorFailState 5 (fun _ => Except.error ())).1,
   by decide,
   (selector_step_absorbs_exceptions selectorFailState 5 (fun _ => Except.error ())).2
     40 7 [] (by decide) (by decide) rfl⟩

/-- C5 counterexample: queue non-empty and the tracked height exceeds
the chain height, so the code reaches the `RFM`-then-reschedule path;
but the popped hash is not fully known and has no `RequestState`, so
`RFM` raises, the `except` swallows it, and the selector timer is never
re-armed (`trace` has no `armSelectorTimer`), contradicting the claimed
unconditional reschedule. -/
theorem selector_rfm_raise_no_resched_cex :
    select_best_bkmr missingReqState 1 (fun _ => Except.ok 50) =
      { err := none, state := { missingReqState with bkmr_priorityq := [] }, trace := [] } ∧
    Event.armSelectorTimer 5 ∉
      (select_best_bkmr missingReqState 1 (fun _ => Except.ok 50)).trace := by
  constructor
  · decide
  · decide

/-- C5 amended: under the claim's conditions, and provided the `RFM`
call returns without raising (the popped hash is fully known or still
has a `RequestState`), the step performs the `RFM` effects for the
popped hash and then re-arms the selector timer for the fixed 5-unit
delay. -/
theorem selector_progress_reschedules (s : FactoryState) (height : Nat)
    (gbs : Nat → Except Unit Nat) (dscore : Nat) (dhash : Hash) (rest : List (Nat × Hash))
    (hpop : popMin s.bkmr_priorityq = some ((dscore, dhash), rest))
    (hcond : height < s.bkmr_blocknumber ∨
      ∃ oldscore, gbs s.bkmr_blocknumber = Except.ok oldscore ∧ dscore ≤ oldscore)
    (hpresent : dhash ∈ s.master_mr.hash_msg ∨
      (lookupReq s.master_mr.requested_hash dhash).isSome = true) :
    (RFM { s with bkmr_priorityq := rest } dhash).err = none ∧
    select_best_bkmr s height gbs =
      { err := none
        state :=
          { (RFM { s with bkmr_priorityq := rest } dhash).state with
            bkmr_processor := (RFM { s with bkmr_priorityq := rest } dhash).state.timer_ctr
            timer_ctr := (RFM { s with bkmr_priorityq := rest } dhash).state.timer_ctr + 1 }
        trace := (RFM { s with bkmr_priorityq := rest } dhash).trace
          ++ [Event.armSelectorTimer 5] } := by
  have herr : (RFM { s with bkmr_priorityq := rest } dhash).err = none :=
    RFM_err_none_of_present _ _ hpresent
  refine ⟨herr, ?_⟩
  have hRR : bkmrRequestAndReschedule { s with bkmr_priorityq := rest } dhash =
      { err := none
        state :=
          { (RFM { s with bkmr_priorityq := rest } dhash).state with
            bkmr_processor := (RFM { s with bkmr_priorityq := rest } dhash).state.timer_ctr
            timer_ctr := (RFM { s with bkmr_priorityq := rest } dhash).state.timer_ctr + 1 }
        trace := (RFM { s with bkmr_priorityq := rest } dhash).trace
          ++ [Event.armSelectorTimer 5] } := by
    unfold bkmrRequestAndReschedule
    simp [herr]
  by_cases hle : s.bkmr_blocknumber ≤ height
  · rcases hcond with hgt | ⟨oldscore, hok, hsle⟩
    · exact absurd hle (Nat.not_le_of_lt hgt)
    · have hnot : ¬ dscore > oldscore := Nat.not_lt_of_le hsle
      simp only [select_best_bkmr, hpop, if_pos hle, hok, if_neg hnot]
      exact hRR
  · simp only [select_best_bkmr, hpop, if_neg hle]
    exact hRR

theorem broadcastLoop_ok (ig : List Peer) (rec : MRRecord) (wfail : Peer → Bool)
    (ps : List Peer) (hok : ∀ p ∈ ps, p ∉ ig → wfail p = false) :
    broadcastLoop ig rec wfail ps =
      (none, (ps.filter (fun p => decide (p ∉ ig))).map (fun p => Event.sendMR p rec)) := by
  induction ps with
  | nil => rfl
  | cons p t ih =>
    have hok' : ∀ q ∈ t, q ∉ ig → wfail q = false :=
      fun q hq => hok q (List.mem_cons_of_mem p hq)
    by_cases hig : p ∈ ig
    · simp [broadcastLoop, hig, List.filter_cons, ih hok']
    · have hw : wfail p = false := hok p (List.mem_cons_self p t) hig
      simp [broadcastLoop, hig, hw, List.filter_cons, ih hok']

theorem broadcastLoop_fails (ig : List Peer) (rec : MRRecord) (wfail : Peer → Bool)
    (ps : List Peer) (hex : ∃ p ∈ ps, p ∉ ig ∧ wfail p = true) :
    (broadcastLoop ig rec wfail ps).1 = some PyError.writeFailed := by
  induction ps with
  | nil => rcases hex with ⟨p, hp, _⟩; cases hp
  | cons q t ih =>
    rcases hex with ⟨p, hp, hnig, hw⟩
    by_cases hqig : q ∈ ig
    · have hpt : p ∈ t := by
        rcases List.mem_cons.1 hp with rfl | hpt
        · exact absurd hqig hnig
        · exact hpt
      simpa [broadcastLoop, hqig] using ih ⟨p, hpt, hnig, hw⟩
    · by_cases hqw : wfail q = true
      · simp [broadcastLoop, hqig, hqw]
      · have hpt : p ∈ t := by
          rcases List.mem_cons.1 hp with rfl | hpt
          · exact absurd hw hqw
          · exact hpt
        simpa [broadcastLoop, hqig, hqw] using ih ⟨p, hpt, hnig, hw⟩

theorem pingLoop_ok (wfail : Peer → Bool) (ps : List Peer)
    (hok : ∀ p ∈ ps, wfail p = false) :
    pingLoop wfail ps = (none, ps.map Event.sendPing) := by
  induction ps with
  | nil => rfl
  | cons p t ih =>
    have hw : wfail p = false := hok p (List.mem_cons_self p t)
    simp [pingLoop, hw, ih fun q hq => hok q (List.mem_cons_of_mem p hq)]

theorem pingLoop_fails (wfail : Peer → Bool) (ps : List Peer)
    (hex : ∃ p ∈ ps, wfail p = true) :
    (pingLoop wfail ps).1 = some PyError.writeFailed := by
  induction ps with
  | nil => rcases hex with ⟨p, hp, _⟩; cases hp
  | cons q t ih =>
    rcases hex with ⟨p, hp, hw⟩
    by_cases hqw : wfail q = true
    · simp [pingLoop, hqw]
    · have hpt : p ∈ t := by
        rcases List.mem_cons.1 hp with rfl | hpt
        · exact absurd hw hqw
        · exact hpt
      simpa [pingLoop, hqw] using ih ⟨p, hpt, hw⟩

theorem broadcast_trace_of_ok (s : FactoryState) (msg_hash : Hash) (msg_type : String)
    (data : Option MRRecord) (wfail : Peer → Bool)
    (hok : ∀ p ∈ s.peer_connections, p ∉ ignoreSet s msg_hash → wfail p = false) :
    broadcast s msg_hash msg_type data wfail =
      { err := none
        state := s
        trace := (s.peer_connections.filter
            (fun p => decide (p ∉ ignoreSet s msg_hash))).map
          (fun p => Event.sendMR p (broadcastRecord msg_hash msg_type data)) } := by
  unfold broadcast
  dsimp only
  rw [broadcastLoop_ok _ _ _ _ hok]

/-- Specialization of `broadcast_trace_of_ok` to the all-writes-succeed
oracle. -/
theorem broadcast_noFail_ok (s : FactoryState) (msg_hash : Hash) (msg_type : String)
    (data : Option MRRecord) :
    broadcast s msg_hash msg_type data noWriteFailure =
      { err := none
        state := s
        trace := (s.peer_connections.filter
            (fun p => decide (p ∉ ignoreSet s msg_hash))).map
          (fun p => Event.sendMR p (broadcastRecord msg_hash msg_type data)) } :=
  broadcast_trace_of_ok s msg_hash msg_type data noWriteFailure (fun _ _ _ => rfl)

/-- Closed witness for the amended C5: chain-accepted score 50, queue
entry `(40, 7)` with a live `RequestState` for hash 7 — the step sends
the full-message request and re-arms the selector timer. -/
theorem selector_progress_reschedules_witness :
    (RFM { progressState with bkmr_priorityq := [] } 7).err = none ∧
    select_best_bkmr progressState 2 (fun _ => Except.ok 50) =
      { err := none
        state :=
          { (RFM { progressState with bkmr_priorityq := [] } 7).state with
            bkmr_processor := (RFM { progressState with bkmr_priorityq := [] } 7).state.timer_ctr
            timer_ctr := (RFM { progressState with bkmr_priorityq := [] } 7).state.timer_ctr + 1 }
        trace := (RFM { progressState with bkmr_priorityq := [] } 7).trace
          ++ [Event.armSelectorTimer 5] } :=
  selector_progress_reschedules progressState 2 (fun _ => Except.ok 50) 40 7 []
    (by decide) (Or.inr ⟨50, rfl, by decide⟩) (Or.inr (by decide))

/-- C8: with every transport write succeeding, a `broadcast` of hash `h`
sends the announce to no peer in the `RequestState`'s candidate list and
to every connected peer outside it; with no `RequestState`, every
connected peer gets the announce. -/
theorem broadcast_ignores_candidate_peers (s : FactoryState) (h : Hash) (t : String)
    (data : Option MRRecord) :
    (∀ mr, lookupReq s.master_mr.requested_hash h = some mr →
      (∀ p ∈ mr.peers_connection_list, ∀ rec,
        Event.sendMR p rec ∉ (broadcast s h t data noWriteFailure).trace) ∧
      (∀ p ∈ s.peer_connections, p ∉ mr.peers_connection_list →
        ∃ rec, Event.sendMR p rec ∈ (broadcast s h t data noWriteFailure).trace)) ∧
    (lookupReq s.master_mr.requested_hash h = none →
      ∀ p ∈ s.peer_connections,
        ∃ rec, Event.sendMR p rec ∈ (broadcast s h t data noWriteFailure).trace) := by
  rw [broadcast_noFail_ok]
  constructor
  · intro mr hmr
    have hig : ignoreSet s h = mr.peers_connection_list := by
      simp [ignoreSet, hmr]
    rw [hig]
    constructor
    · intro p hp rec hmem
      rcases List.mem_map.1 hmem with ⟨q, hq, hevq⟩
      rcases Event.sendMR.injEq .. ▸ hevq with ⟨rfl, rfl⟩
      · rcases List.mem_filter.1 hq with ⟨_, hdec⟩
        exact (of_decide_eq_true hdec) hp
    · intro p hp hnp
      exact ⟨broadcastRecord h t data,
        List.mem_map.2 ⟨p, List.mem_filter.2 ⟨hp, decide_eq_true hnp⟩, rfl⟩⟩
  · intro hnone p hp
    have hig : ignoreSet s h = [] := by
      simp [ignoreSet, hnone]
    rw [hig]
    exact ⟨broadcastRecord h t data,
      List.mem_map.2 ⟨p, List.mem_filter.2 ⟨hp, by simp⟩, rfl⟩⟩

/-- Closed witness for C8: peers `[1, 2, 3]` connected, peer 2 announced
hash 9 — the announce for 9 reaches peers 1 and 3 and skips peer 2. -/
theorem broadcast_ignores_candidate_peers_witness :
    lookupReq bcastState.master_mr.requested_hash 9 =
      some { peers_connection_list := [2], already_requested_peers := [],
             callLater := some 0 } ∧
    (∀ rec, Event.sendMR 2 rec ∉ (broadcast bcastState 9 "BK" none noWriteFailure).trace) ∧
    (∃ rec, Event.sendMR 1 rec ∈ (broadcast bcastState 9 "BK" none noWriteFailure).trace) ∧
    (∃ rec, Event.sendMR 3 rec ∈ (broadcast bcastState 9 "BK" none noWriteFailure).trace) :=
  ⟨by decide,
   fun rec =>
     ((broadcast_ignores_candidate_peers bcastState 9 "BK" none).1
       { peers_connection_list := [2], already_requested_peers := [], callLater := some 0 }
       (by decide)).1 2 (by decide) rec,
   ((broadcast_ignores_candidate_peers bcastState 9 "BK" none).1
       { peers_connection_list := [2], already_requested_peers := [], callLater := some 0 }
       (by decide)).2 1 (by decide) (by decide),
   ((broadcast_ignores_candidate_peers bcastState 9 "BK" none).1
       { peers_connection_list := [2], already_requested_peers := [], callLater := some 0 }
       (by decide)).2 3 (by decide) (by decide)⟩

/-- C3 counterexample: peers `[1, 2]` are connected, no ignore set, and
peer 1's transport write raises.  The loop aborts: the error propagates
to the caller (`err = some writeFailed`) and peer 2 is never written —
per-peer I/O failures are not isolated.  `ping_peers` behaves the same
way. -/
theorem broadcast_write_failure_aborts_cex :
    (broadcast twoPeerState 9 "TX" none failPeerOne).err = some PyError.writeFailed ∧
    (broadcast twoPeerState 9 "TX" none failPeerOne).trace = [] ∧
    (ping_peers twoPeerState 0 failPeerOne).err = some PyError.writeFailed ∧
    (ping_peers twoPeerState 0 failPeerOne).trace = [] := by
  refine ⟨?_, ?_, ?_, ?_⟩ <;> decide

/-- C3 amended: `broadcast` and `ping_peers` contain no per-peer
exception handling.  When no write raises, the message reaches every
targeted peer and no error escapes; but if any targeted peer's write
raises, the exception propagates to the caller, aborting delivery to the
peers after it. -/
theorem broadcast_ping_failure_propagation (s : FactoryState) (h : Hash) (t : String)
    (data : Option MRRecord) (wfail : Peer → Bool) (now : Nat) :
    ((∀ p ∈ s.peer_connections, wfail p = false) →
      (broadcast s h t data wfail).err = none ∧
      (∀ p ∈ s.peer_connections, p ∉ ignoreSet s h →
        ∃ rec, Event.sendMR p rec ∈ (broadcast s h t data wfail).trace) ∧
      (ping_peers s now wfail).err = none ∧
      (∀ p ∈ s.peer_connections, Event.sendPing p ∈ (ping_peers s now wfail).trace)) ∧
    ((∃ p ∈ s.peer_connections, p ∉ ignoreSet s h ∧ wfail p = true) →
      (broadcast s h t data wfail).err = some PyError.writeFailed) ∧
    ((∃ p ∈ s.peer_connections, wfail p = true) →
      (ping_peers s now wfail).err = some PyError.writeFailed) := by
  refine ⟨?_, ?_, ?_⟩
  · intro hok
    have hb := broadcast_trace_of_ok s h t data wfail fun p hp _ => hok p hp
    have hping : pingLoop wfail s.peer_connections = (none, s.peer_connections.map Event.sendPing) :=
      pingLoop_ok wfail s.peer_connections hok
    refine ⟨by rw [hb], ?_, ?_, ?_⟩
    · intro p hp hnig
      rw [hb]
      exact ⟨broadcastRecord h t data,
        List.mem_map.2 ⟨p, List.mem_filter.2 ⟨hp, decide_eq_true hnig⟩, rfl⟩⟩
    · show (pingLoop wfail s.peer_connections).1 = none
      rw [hping]
    · intro p hp
      show Event.sendPing p ∈ (pingLoop wfail s.peer_connections).2
      rw [hping]
      exact List.mem_map.2 ⟨p, hp, rfl⟩
  · intro hex
    exact broadcastLoop_fails _ _ _ _ hex
  · intro hex
    exact pingLoop_fails _ _ hex

/-- Closed witness for the amended C3: with no failing write both peers
receive the announce; with peer 1's write raising the error reaches the
caller. -/
theorem broadcast_ping_failure_propagation_witness :
    (broadcast twoPeerState 9 "TX" none noWriteFailure).err = none ∧
    (∃ rec, Event.sendMR 2 rec ∈ (broadcast twoPeerState 9 "TX" none noWriteFailure).trace) ∧
    (broadcast twoPeerState 9 "TX" none failPeerOne).err = some PyError.writeFailed ∧
    (ping_peers twoPeerState 0 failPeerOne).err = some PyError.writeFailed :=
  ⟨((broadcast_ping_failure_propagation twoPeerState 9 "TX" none noWriteFailure 0).1
      (fun _ _ => rfl)).1,
   ((broadcast_ping_failure_propagation twoPeerState 9 "TX" none noWriteFailure 0).1
      (fun _ _ => rfl)).2.1 2 (by decide) (by decide),
   (broadcast_ping_failure_propagation twoPeerState 9 "TX" none failPeerOne 0).2.1
     ⟨1, by decide, by decide, rfl⟩,
   (broadcast_ping_failure_propagation twoPeerState 9 "TX" none failPeerOne 0).2.2
     ⟨1, by decide, rfl⟩⟩

/-- C6: for a pending hash, `RFM` (a) keeps the already-asked list
duplicate-free, (b) sends any request to the first candidate in announce
order not yet asked, appending exactly that peer to the asked list, and
(c) when the asked list is the first `n` candidates (the state after `n`
retries over a duplicate-free candidate list), the next invocation asks
exactly the `(n+1)`-th candidate. -/
theorem rfm_asks_next_unasked_once (s : FactoryState) (h : Hash) (mr : MessageRequest)
    (hunknown : h ∉ s.master_mr.hash_msg)
    (hlook : lookupReq s.master_mr.requested_hash h = some mr) :
    (∀ mr', lookupReq (RFM s h).state.master_mr.requested_hash h = some mr' →
      mr.already_requested_peers.Nodup → mr'.already_requested_peers.Nodup) ∧
    (∀ p h', Event.sendSFM p h' ∈ (RFM s h).trace →
      h' = h ∧ p ∉ mr.already_requested_peers ∧
      (∃ i, mr.peers_connection_list.get? i = some p ∧
        ∀ j, j < i → ∀ q, mr.peers_connection_list.get? j = some q →
          q ∈ mr.already_requested_peers) ∧
      (∃ mr', lookupReq (RFM s h).state.master_mr.requested_hash h = some mr' ∧
        mr'.already_requested_peers = mr.already_requested_peers ++ [p])) ∧
    (∀ n, mr.peers_connection_list.Nodup →
      mr.already_requested_peers = mr.peers_connection_list.take n →
      n < mr.peers_connection_list.length →
      ∃ p, mr.peers_connection_list.get? n = some p ∧
        Event.sendSFM p h ∈ (RFM s h).trace ∧
        ∃ mr', lookupReq (RFM s h).state.master_mr.requested_hash h = some mr' ∧
          mr'.already_requested_peers = mr.peers_connection_list.take (n + 1)) := by
  cases hfu : firstUnasked mr.peers_connection_list mr.already_requested_peers with
  | none =>
    have hstate : (RFM s h).state.master_mr.requested_hash
        = delReq s.master_mr.requested_hash h := by
      simp [RFM, hunknown, hlook, hfu]
    have htrace : (RFM s h).trace = [] := by
      simp [RFM, hunknown, hlook, hfu]
    refine ⟨?_, ?_, ?_⟩
    · intro mr' hmr'
      rw [hstate, lookupReq_delReq_self] at hmr'
      cases hmr'
    · intro p h' hmem
      rw [htrace] at hmem
      cases hmem
    · intro n hnd htake hlen
      have hcontra := firstUnasked_take mr.peers_connection_list n hnd hlen
      rw [← htake, hfu] at hcontra
      rcases List.get?_eq_get hlen ▸ hcontra with hc
      cases hc
  | some peer =>
    obtain ⟨hpna, i, hgi, hfirst⟩ := firstUnasked_spec _ _ _ hfu
    have hstate : (RFM s h).state.master_mr.requested_hash
        = setReq s.master_mr.requested_hash h
            { peers_connection_list := mr.peers_connection_list
              already_requested_peers := mr.already_requested_peers ++ [peer]
              callLater := some s.timer_ctr } := by
      simp [RFM, hunknown, hlook, hfu]
    have htrace : (RFM s h).trace = [Event.sendSFM peer h, Event.armRFMTimer h] := by
      simp [RFM, hunknown, hlook, hfu]
    have hlook' : lookupReq (RFM s h).state.master_mr.requested_hash h
        = some { peers_connection_list := mr.peers_connection_list
                 already_requested_peers := mr.already_requested_peers ++ [peer]
                 callLater := some s.timer_ctr } := by
      rw [hstate]
      exact lookupReq_setReq_self _ _ mr _ hlook
    refine ⟨?_, ?_, ?_⟩
    · intro mr' hmr' hnd
      rw [hlook'] at hmr'
      have he : mr' = { peers_connection_list := mr.peers_connection_list
                        already_requested_peers := mr.already_requested_peers ++ [peer]
                        callLater := some s.timer_ctr } := by
        injection hmr' with he2
        exact he2.symm
      rw [he]
      exact List.Nodup.append hnd (List.nodup_singleton peer)
        (List.disjoint_singleton.2 hpna)
    · intro p h' hmem
      rw [htrace] at hmem
      rcases List.mem_cons.1 hmem with he | hmem2
      · have hp : p = peer := by injection he with h1 h2
        have hh : h' = h := by injection he with h1 h2
        subst hp; subst hh
        exact ⟨rfl, hpna, ⟨i, hgi, hfirst⟩, _, hlook', rfl⟩
      · rcases List.mem_cons.1 hmem2 with he2 | hmem3
        · cases he2
        · cases hmem3
    · intro n hnd htake hlen
      have hge := firstUnasked_take mr.peers_connection_list n hnd hlen
      rw [← htake, hfu] at hge
      refine ⟨peer, hge.symm, ?_, ?_⟩
      · rw [htrace]
        exact List.mem_cons_self _ _
      · refine ⟨_, hlook', ?_⟩
        have hge2 : mr.peers_connection_list[n]? = some peer := by
          rw [← List.get?_eq_getElem?]
          exact hge.symm
        rw [htake, List.take_succ, hge2]
        rfl

/-- Closed witness for C6: candidates `[4, 5, 6]` with peer 4 already
asked (`take 1`): the next `RFM` asks peer 5, the second candidate, and
the asked list becomes `take 2 = [4, 5]`. -/
theorem rfm_asks_next_unasked_once_witness :
    (9 : Hash) ∉ askState.master_mr.hash_msg ∧
    lookupReq askState.master_mr.requested_hash 9 = some askMR ∧
    ∃ p, askMR.peers_connection_list.get? 1 = some p ∧
      Event.sendSFM p 9 ∈ (RFM askState 9).trace ∧
      ∃ mr', lookupReq (RFM askState 9).state.master_mr.requested_hash 9 = some mr' ∧
        mr'.already_requested_peers = askMR.peers_connection_list.take 2 :=
  ⟨by decide, by decide,
   (rfm_asks_next_unasked_once askState 9 askMR (by decide) (by decide)).2.2
     1 (by decide) (by decide) (by decide)⟩

end P2PFactory
